import Mathlib

/-!
Verification of the decorator application engine described by the
tc39 decorators proposal corpus: the transformer-chain calling
discipline, the phased Evaluate/Call/Apply pipeline, capability tokens
for private elements, metadata aggregation and inheritance, the
`FriendKey` sharing mechanism of `friend.js`, and the auto-accessor
decorator application rule.  Each definition is a shallow embedding of
the algorithm given by the corresponding source document (README
desugarings and prose, `friend.js` code).
-/

namespace Decorators

/-- A transformer (decorator) over payloads of type `V`: it receives the
current payload and either returns a replacement (`some`) or returns
nothing, which means "keep the current value" — the `??` default in the
README desugarings, e.g. `C.prototype.m = logged(C.prototype.m, ctx) ?? C.prototype.m`. -/
abbrev Transformer (V : Type) := V → Option V

/-- One step of chain application: the payload fed onward is the
transformer's return value, defaulting to the current payload when the
transformer returns nothing (the `?? C.prototype.m` fallback in the
README desugaring of `@logged`). -/
def chainStep {V : Type} (cur : V) (d : Transformer V) : V := (d cur).getD cur

/-- Apply a transformer chain to a payload.  The chain is listed
innermost first: the transformer textually closest to the declaration
is at the head and runs first, matching the "inside to outside, top to
bottom" call order stated for `@register` in the specification outline
and the nested desugarings of the README. -/
def callChain {V : Type} (chain : List (Transformer V)) (p : V) : V :=
  match chain with
  | [] => p
  | d :: rest => callChain rest (chainStep p d)

/-- Instrumented chain application: besides the final payload it records,
in invocation order, the index of each transformer invoked together with
the payload that invocation received. -/
def callChainLog {V : Type} (chain : List (Transformer V)) (start : Nat) (p : V) :
    V × List (Nat × V) :=
  match chain with
  | [] => (p, [])
  | d :: rest =>
    let r := callChainLog rest (start + 1) (chainStep p d)
    (r.1, (start, p) :: r.2)

/-- The sequence of payloads fed to the successive transformers of a
chain: the raw payload first, then each step's output. -/
def chainInputs {V : Type} (chain : List (Transformer V)) (p : V) : List V :=
  match chain with
  | [] => []
  | d :: rest => p :: chainInputs rest (chainStep p d)

theorem callChainLog_fst {V : Type} (chain : List (Transformer V)) (s : Nat) (p : V) :
    (callChainLog chain s p).1 = callChain chain p := by
  induction chain generalizing s p with
  | nil => rfl
  | cons d rest ih => simp [callChainLog, callChain, ih]

theorem callChainLog_indices {V : Type} (chain : List (Transformer V)) (s : Nat) (p : V) :
    (callChainLog chain s p).2.map Prod.fst = List.range' s chain.length := by
  induction chain generalizing s p with
  | nil => rfl
  | cons d rest ih => simp [callChainLog, List.range'_succ, ih]

theorem callChainLog_inputs {V : Type} (chain : List (Transformer V)) (s : Nat) (p : V) :
    (callChainLog chain s p).2.map Prod.snd = chainInputs chain p := by
  induction chain generalizing s p with
  | nil => rfl
  | cons d rest ih => simp [callChainLog, chainInputs, ih]

theorem chainInputs_length {V : Type} (chain : List (Transformer V)) (p : V) :
    (chainInputs chain p).length = chain.length := by
  induction chain generalizing p with
  | nil => rfl
  | cons d rest ih => simp [chainInputs, ih]

theorem chainInputs_head {V : Type} (chain : List (Transformer V)) (p : V)
    (h : chain ≠ []) : (chainInputs chain p)[0]? = some p := by
  cases chain with
  | nil => exact absurd rfl h
  | cons d rest => simp [chainInputs]

theorem chainInputs_succ {V : Type} (chain : List (Transformer V)) (p : V) :
    ∀ i d cur, chain[i]? = some d → (chainInputs chain p)[i]? = some cur →
      i + 1 < chain.length → (chainInputs chain p)[i + 1]? = some (chainStep cur d) := by
  induction chain generalizing p with
  | nil => intro i d cur h; simp at h
  | cons e rest ih =>
    intro i d cur hd hcur hlt
    cases i with
    | zero =>
      have he : e = d := by simpa using hd
      have hp : p = cur := by simpa [chainInputs] using hcur
      have hne : rest ≠ [] := by
        intro hr; rw [hr] at hlt; simp at hlt
      have hh := chainInputs_head rest (chainStep p e) hne
      simpa [chainInputs, he, hp] using hh
    | succ j =>
      simp only [List.getElem?_cons_succ] at hd
      simp only [chainInputs, List.getElem?_cons_succ] at hcur ⊢
      exact ih (chainStep p e) j d cur hd hcur (by simpa using hlt)

theorem callChain_append {V : Type} (a b : List (Transformer V)) (p : V) :
    callChain (a ++ b) p = callChain b (callChain a p) := by
  induction a generalizing p with
  | nil => rfl
  | cons d rest ih => simp [callChain, ih]

theorem callChain_none {V : Type} (chain : List (Transformer V)) (p : V)
    (h : ∀ d ∈ chain, ∀ x, d x = none) : callChain chain p = p := by
  induction chain generalizing p with
  | nil => rfl
  | cons d rest ih =>
    have hd : d p = none := h d (List.mem_cons_self d rest) p
    simp only [callChain, chainStep, hd, Option.getD_none]
    exact ih p (fun e he x => h e (List.mem_cons_of_mem d he) x)

/-- C1: during the Calling phase, a transformer chain of length `n` on one
element invokes each of the `n` transformers exactly once, in
innermost-to-outermost order (the invocation log lists indices
`0, …, n-1` in order); the innermost transformer receives the raw
payload and each transformer's result (its return value, or the current
payload when it returns nothing) is the payload fed to the next
transformer outward; the finally installed element is the outermost
transformer's return value when it returns one, and the original payload
when every transformer returns nothing. -/
theorem calling_phase_chain_discipline {V : Type} (chain : List (Transformer V)) (p : V) :
    ((callChainLog chain 0 p).2.map Prod.fst = List.range chain.length
      ∧ (callChainLog chain 0 p).2.map Prod.snd = chainInputs chain p
      ∧ (callChainLog chain 0 p).1 = callChain chain p)
    ∧ (chain ≠ [] → (chainInputs chain p)[0]? = some p)
    ∧ (∀ i d cur, chain[i]? = some d → (chainInputs chain p)[i]? = some cur →
        i + 1 < chain.length → (chainInputs chain p)[i + 1]? = some (chainStep cur d))
    ∧ (∀ ds d v, chain = ds ++ [d] → d (callChain ds p) = some v →
        callChain chain p = v)
    ∧ ((∀ d ∈ chain, ∀ x, d x = none) → callChain chain p = p) := by
  refine ⟨⟨?_, callChainLog_inputs chain 0 p, callChainLog_fst chain 0 p⟩,
    chainInputs_head chain p, chainInputs_succ chain p, ?_, callChain_none chain p⟩
  · rw [callChainLog_indices chain 0 p, List.range_eq_range']
  · intro ds d v hchain hd
    subst hchain
    rw [callChain_append]
    simp [callChain, chainStep, hd]

/-- Witness for C1, the specification's own example scenario: method `m`
decorated by chain `[f, g]` with `f` innermost, `f(x) = x ++ "-f"`,
`g(x) = x ++ "-g"`; the committed value on payload `"base"` is
`"base-f-g"`, i.e. the outermost transformer's return value. -/
theorem calling_phase_chain_discipline_witness :
    callChain [fun x => some (x ++ "-f"), fun x => some (x ++ "-g")] "base" = "base-f-g" :=
  ((calling_phase_chain_discipline
      [fun x => some (x ++ "-f"), fun x => some (x ++ "-g")] "base").2.2.2.1
    [fun x => some (x ++ "-f")] (fun x => some (x ++ "-g")) "base-f-g" rfl rfl)

/-! ### Metadata records and inheritance (README, section "Metadata") -/

/-- A per-side metadata object, as in the README interface
`{ public?: Record<string, unknown>; private?: unknown[] }`: a `public`
mapping from element names to aggregated values and a `private` ordered
array with one slot per annotated private element, in declaration
order. -/
structure MetaRecord (V : Type) where
  pub : List (String × V)
  priv : List V

/-- Name lookup in a public metadata mapping; the first entry for a key
wins, which models prototype-style lookup when the own entries precede
the inherited ones. -/
def lookupPublic {V : Type} (l : List (String × V)) (k : String) : Option V :=
  match l with
  | [] => none
  | (k', v) :: rest => if k' = k then some v else lookupPublic rest k

/-- Committed metadata record of a subclass, from the README: "the
metadata object itself inherits from the parent class' metadata object
…, the `public` object inherits from the parent's `public` object …
The `private` array inherits as well by appending the private metadata
of the class to the private metadata array of the parent."  Own public
entries shadow the parent's (prototype lookup); the private array is
the parent's array followed by the class's own entries. -/
def finalizeMetadata {V : Type} (parent own : MetaRecord V) : MetaRecord V :=
  ⟨own.pub ++ parent.pub, parent.priv ++ own.priv⟩

theorem lookupPublic_append {V : Type} (a b : List (String × V)) (k : String) :
    lookupPublic (a ++ b) k = (lookupPublic a k).orElse (fun _ => lookupPublic b k) := by
  induction a with
  | nil => rfl
  | cons e rest ih =>
    obtain ⟨k', v⟩ := e
    by_cases h : k' = k
    · simp [lookupPublic, h]
    · simp [lookupPublic, h, ih]

/-- C5: a subclass's committed Metadata Record extends its superclass's:
a public lookup finds the subclass's own entry when one exists under the
key and otherwise falls back to the superclass's entry, and the private
sequence is the superclass's sequence followed by the subclass's own
entries, in that order. -/
theorem metadata_record_inheritance {V : Type} (parent own : MetaRecord V) (k : String) :
    lookupPublic (finalizeMetadata parent own).pub k
        = (lookupPublic own.pub k).orElse (fun _ => lookupPublic parent.pub k)
    ∧ (finalizeMetadata parent own).priv = parent.priv ++ own.priv :=
  ⟨lookupPublic_append own.pub parent.pub k, rfl⟩

/-! ### Auto-accessor decorator application (README, "Class Auto-Accessors") -/

/-- The object an auto-accessor decorator may return:
`{ get?; set?; init? }`, each component optional.  `G` and `S` are the
types of the getter and setter components. -/
structure AccessorReplacement (G S V : Type) where
  get : Option G
  set : Option S
  init : Option (V → V)

/-- Application of an auto-accessor decorator result, from the README
desugaring: `let { get: newGet = oldGet, set: newSet = oldSet,
init: initializeX = (initialValue) => initialValue } = logged(…) ?? {}`.
An omitted component defaults to the original behavior, and an omitted
`init` defaults to the identity initializer. -/
def applyAccessorDecorator {G S V : Type} (oldGet : G) (oldSet : S)
    (res : Option (AccessorReplacement G S V)) : G × S × (V → V) :=
  match res with
  | none => (oldGet, oldSet, fun v => v)
  | some r => (r.get.getD oldGet, r.set.getD oldSet, r.init.getD (fun v => v))

/-- C10: when an auto-accessor decorator returns an object omitting any
of `get`, `set`, or `init`, only the components present replace the
original ones: an omitted `get` or `set` leaves the original getter or
setter installed, and an omitted `init` leaves the initial value passed
through unchanged. -/
theorem accessor_decorator_omitted_components {G S V : Type} (oldGet : G) (oldSet : S)
    (r : AccessorReplacement G S V) :
    (r.get = none → (applyAccessorDecorator oldGet oldSet (some r)).1 = oldGet)
    ∧ (r.set = none → (applyAccessorDecorator oldGet oldSet (some r)).2.1 = oldSet)
    ∧ (r.init = none → ∀ v, (applyAccessorDecorator oldGet oldSet (some r)).2.2 v = v) := by
  refine ⟨fun h => ?_, fun h => ?_, fun h v => ?_⟩ <;>
    simp [applyAccessorDecorator, h]

/-- Witness for C10 at a concrete input: a decorator result omitting all
three components leaves the original getter installed and passes the
initial value `7` through unchanged. -/
theorem accessor_decorator_omitted_components_witness :
    (applyAccessorDecorator (G := Nat → Nat) (S := Nat → Nat → Nat) (V := Nat)
        (fun n => n + 1) (fun n v => n + v) (some ⟨none, none, none⟩)).1 = (fun n => n + 1)
    ∧ (applyAccessorDecorator (G := Nat → Nat) (S := Nat → Nat → Nat) (V := Nat)
        (fun n => n + 1) (fun n v => n + v) (some ⟨none, none, none⟩)).2.2 7 = 7 :=
  ⟨(accessor_decorator_omitted_components (fun n => n + 1) (fun n v => n + v)
      ⟨none, none, none⟩).1 rfl,
   (accessor_decorator_omitted_components (fun n => n + 1) (fun n v => n + v)
      ⟨none, none, none⟩).2.2 rfl 7⟩

/-! ### The Evaluate → Call → Apply pipeline as an event trace

From the README, "Detailed Design": decorator expressions are evaluated
first (left to right, top to bottom); decorators are then called, after
the methods have been evaluated but before the constructor and
prototype have been put together; decorators are applied all at once
after all of them have been called, the intermediate steps being
unobservable; the class decorator is called only after all method and
field decorators are called and applied; static element initializers
run before static class fields are defined; static fields are then
executed and applied; class decorator initializers run after static
fields have been assigned; only then is the new class made available. -/

/-- One observable step of a class-definition run. -/
inductive Event
  | evalDecorator (elem idx : Nat)
  | callElemDecorator (elem idx : Nat)
  | commitElements
  | callClassDecorator (idx : Nat)
  | commitClass
  | runStaticElemInit (i : Nat)
  | installStaticField (i : Nat)
  | runClassInit (i : Nat)
  | classExposed
  deriving DecidableEq

def Event.isElemCall : Event → Bool
  | .callElemDecorator _ _ => true
  | _ => false

def Event.isCommitElements : Event → Bool
  | .commitElements => true
  | _ => false

def Event.isCommit : Event → Bool
  | .commitElements => true
  | .commitClass => true
  | _ => false

def Event.isStaticElemInit : Event → Bool
  | .runStaticElemInit _ => true
  | _ => false

def Event.isStaticField : Event → Bool
  | .installStaticField _ => true
  | _ => false

def Event.isClassInit : Event → Bool
  | .runClassInit _ => true
  | _ => false

def Event.isExposed : Event → Bool
  | .classExposed => true
  | _ => false

/-- A class definition, for the purpose of the pipeline trace: per
non-class element (in source order) the length of its transformer
chain, the length of the class's own chain, and the numbers of
scheduled static-element-level initializers, static fields, and
class-level initializers. -/
structure ClassDef where
  elemChains : List Nat
  classChain : Nat
  nStaticElemInits : Nat
  nStaticFields : Nat
  nClassInits : Nat

def evalEvents (cd : ClassDef) : List Event :=
  (List.range cd.classChain).map (Event.evalDecorator cd.elemChains.length)
    ++ cd.elemChains.enum.flatMap fun ei => (List.range ei.2).map (Event.evalDecorator ei.1)

def elemCallEvents (cd : ClassDef) : List Event :=
  cd.elemChains.enum.flatMap fun ei => (List.range ei.2).map (Event.callElemDecorator ei.1)

def classCallEvents (cd : ClassDef) : List Event :=
  (List.range cd.classChain).map Event.callClassDecorator

def staticElemInitEvents (cd : ClassDef) : List Event :=
  (List.range cd.nStaticElemInits).map Event.runStaticElemInit

def staticFieldEvents (cd : ClassDef) : List Event :=
  (List.range cd.nStaticFields).map Event.installStaticField

def classInitEvents (cd : ClassDef) : List Event :=
  (List.range cd.nClassInits).map Event.runClassInit

/-- The full event trace of one class-definition run, in the order fixed
by the README: evaluation, element-decorator calls (source order,
innermost first within one element), the single atomic commit of all
element replacements, the class-decorator calls, the class replacement,
static-element-level initializers, static field installation,
class-level initializers, and finally the exposure of the finished
class to outside code. -/
def definitionTrace (cd : ClassDef) : List Event :=
  evalEvents cd ++ elemCallEvents cd ++ [Event.commitElements] ++ classCallEvents cd
    ++ [Event.commitClass] ++ staticElemInitEvents cd ++ staticFieldEvents cd
    ++ classInitEvents cd ++ [Event.classExposed]

/-- Every `p`-event of the trace occurs strictly before every
`q`-event. -/
def EventsOrdered (t : List Event) (p q : Event → Bool) : Prop :=
  ∀ i, (hi : i < t.length) → ∀ j, (hj : j < t.length) →
    p t[i] = true → q t[j] = true → i < j

theorem eventsOrdered_append {A B : List Event} {p q : Event → Bool}
    (hA : ∀ e ∈ A, q e = false) (hB : ∀ e ∈ B, p e = false) :
    EventsOrdered (A ++ B) p q := by
  intro i hi j hj hp hq
  have hjA : ¬ j < A.length := by
    intro hlt
    rw [List.getElem_append_left hlt] at hq
    have := hA (A[j]) (A.getElem_mem hlt)
    rw [this] at hq
    exact Bool.false_ne_true hq
  have hiA : i < A.length := by
    by_contra hge
    push_neg at hge
    have hiB : i - A.length < B.length := by
      have := List.length_append A B ▸ hi
      omega
    rw [List.getElem_append_right hge] at hp
    have := hB (B[i - A.length]) (B.getElem_mem hiB)
    rw [this] at hp
    exact Bool.false_ne_true hp
  omega

theorem evalEvents_shape (cd : ClassDef) :
    ∀ e ∈ evalEvents cd, ∃ a b, e = Event.evalDecorator a b := by
  intro e he
  simp only [evalEvents, List.mem_append, List.mem_flatMap, List.mem_map,
    List.mem_range] at he
  rcases he with ⟨b, _, rfl⟩ | ⟨⟨a, n⟩, _, b, _, rfl⟩
  · exact ⟨_, _, rfl⟩
  · exact ⟨_, _, rfl⟩

theorem elemCallEvents_shape (cd : ClassDef) :
    ∀ e ∈ elemCallEvents cd, ∃ a b, e = Event.callElemDecorator a b := by
  intro e he
  simp only [elemCallEvents, List.mem_flatMap, List.mem_map, List.mem_range] at he
  rcases he with ⟨⟨a, n⟩, _, b, _, rfl⟩
  exact ⟨_, _, rfl⟩

theorem classCallEvents_shape (cd : ClassDef) :
    ∀ e ∈ classCallEvents cd, ∃ i, e = Event.callClassDecorator i := by
  intro e he
  simp only [classCallEvents, List.mem_map, List.mem_range] at he
  rcases he with ⟨i, _, rfl⟩
  exact ⟨_, rfl⟩

theorem staticElemInitEvents_shape (cd : ClassDef) :
    ∀ e ∈ staticElemInitEvents cd, ∃ i, e = Event.runStaticElemInit i := by
  intro e he
  simp only [staticElemInitEvents, List.mem_map, List.mem_range] at he
  rcases he with ⟨i, _, rfl⟩
  exact ⟨_, rfl⟩

theorem staticFieldEvents_shape (cd : ClassDef) :
    ∀ e ∈ staticFieldEvents cd, ∃ i, e = Event.installStaticField i := by
  intro e he
  simp only [staticFieldEvents, List.mem_map, List.mem_range] at he
  rcases he with ⟨i, _, rfl⟩
  exact ⟨_, rfl⟩

theorem classInitEvents_shape (cd : ClassDef) :
    ∀ e ∈ classInitEvents cd, ∃ i, e = Event.runClassInit i := by
  intro e he
  simp only [classInitEvents, List.mem_map, List.mem_range] at he
  rcases he with ⟨i, _, rfl⟩
  exact ⟨_, rfl⟩

theorem filter_eq_nil_of_pred_false {l : List Event} {p : Event → Bool}
    (h : ∀ e ∈ l, p e = false) : l.filter p = [] := by
  induction l with
  | nil => rfl
  | cons a t ih =>
    have ha := h a (List.mem_cons_self a t)
    simp [List.filter_cons, ha, ih (fun e he => h e (List.mem_cons_of_mem a he))]

theorem trace_split_before_staticElemInits (cd : ClassDef) :
    definitionTrace cd
      = (evalEvents cd ++ elemCallEvents cd ++ [Event.commitElements]
          ++ classCallEvents cd ++ [Event.commitClass])
        ++ (staticElemInitEvents cd ++ staticFieldEvents cd ++ classInitEvents cd
          ++ [Event.classExposed]) := by
  simp [definitionTrace, List.append_assoc]

theorem trace_split_before_staticFields (cd : ClassDef) :
    definitionTrace cd
      = (evalEvents cd ++ elemCallEvents cd ++ [Event.commitElements]
          ++ classCallEvents cd ++ [Event.commitClass] ++ staticElemInitEvents cd)
        ++ (staticFieldEvents cd ++ classInitEvents cd ++ [Event.classExposed]) := by
  simp [definitionTrace, List.append_assoc]

theorem trace_split_before_classInits (cd : ClassDef) :
    definitionTrace cd
      = (evalEvents cd ++ elemCallEvents cd ++ [Event.commitElements]
          ++ classCallEvents cd ++ [Event.commitClass] ++ staticElemInitEvents cd
          ++ staticFieldEvents cd)
        ++ (classInitEvents cd ++ [Event.classExposed]) := by
  simp [definitionTrace, List.append_assoc]

theorem trace_split_at_commitElements (cd : ClassDef) :
    definitionTrace cd
      = (evalEvents cd ++ elemCallEvents cd)
        ++ ([Event.commitElements] ++ classCallEvents cd ++ [Event.commitClass]
          ++ staticElemInitEvents cd ++ staticFieldEvents cd ++ classInitEvents cd
          ++ [Event.classExposed]) := by
  simp [definitionTrace, List.append_assoc]

theorem trace_split_at_exposure (cd : ClassDef) :
    definitionTrace cd
      = (evalEvents cd ++ elemCallEvents cd ++ [Event.commitElements]
          ++ classCallEvents cd ++ [Event.commitClass] ++ staticElemInitEvents cd
          ++ staticFieldEvents cd ++ classInitEvents cd)
        ++ [Event.classExposed] := by
  simp [definitionTrace, List.append_assoc]

/-- The atomic element commit happens exactly once per run. -/
theorem commitElements_once (cd : ClassDef) :
    ((definitionTrace cd).filter Event.isCommitElements).length = 1 := by
  have h1 : (evalEvents cd).filter Event.isCommitElements = [] :=
    filter_eq_nil_of_pred_false fun e he => by
      rcases evalEvents_shape cd e he with ⟨a, b, rfl⟩; rfl
  have h2 : (elemCallEvents cd).filter Event.isCommitElements = [] :=
    filter_eq_nil_of_pred_false fun e he => by
      rcases elemCallEvents_shape cd e he with ⟨a, b, rfl⟩; rfl
  have h3 : (classCallEvents cd).filter Event.isCommitElements = [] :=
    filter_eq_nil_of_pred_false fun e he => by
      rcases classCallEvents_shape cd e he with ⟨i, rfl⟩; rfl
  have h4 : (staticElemInitEvents cd).filter Event.isCommitElements = [] :=
    filter_eq_nil_of_pred_false fun e he => by
      rcases staticElemInitEvents_shape cd e he with ⟨i, rfl⟩; rfl
  have h5 : (staticFieldEvents cd).filter Event.isCommitElements = [] :=
    filter_eq_nil_of_pred_false fun e he => by
      rcases staticFieldEvents_shape cd e he with ⟨i, rfl⟩; rfl
  have h6 : (classInitEvents cd).filter Event.isCommitElements = [] :=
    filter_eq_nil_of_pred_false fun e he => by
      rcases classInitEvents_shape cd e he with ⟨i, rfl⟩; rfl
  simp [definitionTrace, List.filter_append, h1, h2, h3, h4, h5, h6,
    List.filter_cons, Event.isCommitElements]

/-- C2 counterexample: the claim orders class-level scheduled
initializers before static field installation, but in the trace fixed by
the source a static field is installed before any class-level
initializer runs; a class with one static field and one class-level
initializer refutes the claimed ordering. -/
theorem applying_order_claim_counterexample :
    ¬ EventsOrdered (definitionTrace ⟨[], 0, 0, 1, 1⟩)
        Event.isClassInit Event.isStaticField := by
  intro h
  have h32 := h 3 (by decide) 2 (by decide) (by decide) (by decide)
  omega

theorem singleton_pred {x : Event} {p : Event → Bool} (h : p x = false) :
    ∀ e ∈ [x], p e = false := by
  intro e he
  rw [List.mem_singleton] at he
  rw [he]
  exact h

theorem evalEvents_pred {cd : ClassDef} {p : Event → Bool}
    (h : ∀ a b, p (Event.evalDecorator a b) = false) :
    ∀ e ∈ evalEvents cd, p e = false := by
  intro e he
  rcases evalEvents_shape cd e he with ⟨a, b, rfl⟩
  exact h a b

theorem elemCallEvents_pred {cd : ClassDef} {p : Event → Bool}
    (h : ∀ a b, p (Event.callElemDecorator a b) = false) :
    ∀ e ∈ elemCallEvents cd, p e = false := by
  intro e he
  rcases elemCallEvents_shape cd e he with ⟨a, b, rfl⟩
  exact h a b

theorem classCallEvents_pred {cd : ClassDef} {p : Event → Bool}
    (h : ∀ i, p (Event.callClassDecorator i) = false) :
    ∀ e ∈ classCallEvents cd, p e = false := by
  intro e he
  rcases classCallEvents_shape cd e he with ⟨i, rfl⟩
  exact h i

theorem staticElemInitEvents_pred {cd : ClassDef} {p : Event → Bool}
    (h : ∀ i, p (Event.runStaticElemInit i) = false) :
    ∀ e ∈ staticElemInitEvents cd, p e = false := by
  intro e he
  rcases staticElemInitEvents_shape cd e he with ⟨i, rfl⟩
  exact h i

theorem staticFieldEvents_pred {cd : ClassDef} {p : Event → Bool}
    (h : ∀ i, p (Event.installStaticField i) = false) :
    ∀ e ∈ staticFieldEvents cd, p e = false := by
  intro e he
  rcases staticFieldEvents_shape cd e he with ⟨i, rfl⟩
  exact h i

theorem classInitEvents_pred {cd : ClassDef} {p : Event → Bool}
    (h : ∀ i, p (Event.runClassInit i) = false) :
    ∀ e ∈ classInitEvents cd, p e = false := by
  intro e he
  rcases classInitEvents_shape cd e he with ⟨i, rfl⟩
  exact h i

/-- C2 (amended): the Applying phase commits all final element
replacements in one atomic step; all static-element-level scheduled
initializers run after that commit; static field values are evaluated
and installed after the static-element-level initializers; and the
class-level scheduled initializers run only after the static fields have
been installed (not before them). -/
theorem applying_phase_order (cd : ClassDef) :
    ((definitionTrace cd).filter Event.isCommitElements).length = 1
    ∧ EventsOrdered (definitionTrace cd) Event.isCommitElements Event.isStaticElemInit
    ∧ EventsOrdered (definitionTrace cd) Event.isStaticElemInit Event.isStaticField
    ∧ EventsOrdered (definitionTrace cd) Event.isStaticField Event.isClassInit := by
  refine ⟨commitElements_once cd, ?_, ?_, ?_⟩
  · rw [trace_split_before_staticElemInits]
    refine eventsOrdered_append ?_ ?_
    · simp only [List.forall_mem_append]
      exact ⟨⟨⟨⟨evalEvents_pred fun a b => rfl, elemCallEvents_pred fun a b => rfl⟩,
        singleton_pred rfl⟩, classCallEvents_pred fun i => rfl⟩, singleton_pred rfl⟩
    · simp only [List.forall_mem_append]
      exact ⟨⟨⟨staticElemInitEvents_pred fun i => rfl, staticFieldEvents_pred fun i => rfl⟩,
        classInitEvents_pred fun i => rfl⟩, singleton_pred rfl⟩
  · rw [trace_split_before_staticFields]
    refine eventsOrdered_append ?_ ?_
    · simp only [List.forall_mem_append]
      exact ⟨⟨⟨⟨⟨evalEvents_pred fun a b => rfl, elemCallEvents_pred fun a b => rfl⟩,
        singleton_pred rfl⟩, classCallEvents_pred fun i => rfl⟩, singleton_pred rfl⟩,
        staticElemInitEvents_pred fun i => rfl⟩
    · simp only [List.forall_mem_append]
      exact ⟨⟨staticFieldEvents_pred fun i => rfl, classInitEvents_pred fun i => rfl⟩,
        singleton_pred rfl⟩
  · rw [trace_split_before_classInits]
    refine eventsOrdered_append ?_ ?_
    · simp only [List.forall_mem_append]
      exact ⟨⟨⟨⟨⟨⟨evalEvents_pred fun a b => rfl, elemCallEvents_pred fun a b => rfl⟩,
        singleton_pred rfl⟩, classCallEvents_pred fun i => rfl⟩, singleton_pred rfl⟩,
        staticElemInitEvents_pred fun i => rfl⟩, staticFieldEvents_pred fun i => rfl⟩
    · simp only [List.forall_mem_append]
      exact ⟨classInitEvents_pred fun i => rfl, singleton_pred rfl⟩

/-- C3: no element or class replacement is observable before the
Applying phase completes — every commit event precedes the exposure of
the class, and in fact every event of the run precedes it; moreover no
element-decorator invocation of the Calling phase can observe the
constructor or the not-yet-assembled instance layout, since every
element-decorator call strictly precedes the single commit step at
which the class shape is first put together. -/
theorem no_observation_before_applying_completes (cd : ClassDef) :
    EventsOrdered (definitionTrace cd) Event.isElemCall Event.isCommitElements
    ∧ EventsOrdered (definitionTrace cd) Event.isCommit Event.isExposed
    ∧ EventsOrdered (definitionTrace cd) (fun e => !(Event.isExposed e)) Event.isExposed := by
  have hA : ∀ e ∈ evalEvents cd ++ elemCallEvents cd ++ [Event.commitElements]
      ++ classCallEvents cd ++ [Event.commitClass] ++ staticElemInitEvents cd
      ++ staticFieldEvents cd ++ classInitEvents cd, Event.isExposed e = false := by
    simp only [List.forall_mem_append]
    exact ⟨⟨⟨⟨⟨⟨⟨evalEvents_pred fun a b => rfl, elemCallEvents_pred fun a b => rfl⟩,
      singleton_pred rfl⟩, classCallEvents_pred fun i => rfl⟩, singleton_pred rfl⟩,
      staticElemInitEvents_pred fun i => rfl⟩, staticFieldEvents_pred fun i => rfl⟩,
      classInitEvents_pred fun i => rfl⟩
  refine ⟨?_, ?_, ?_⟩
  · rw [trace_split_at_commitElements]
    refine eventsOrdered_append ?_ ?_
    · simp only [List.forall_mem_append]
      exact ⟨evalEvents_pred fun a b => rfl, elemCallEvents_pred fun a b => rfl⟩
    · simp only [List.forall_mem_append]
      exact ⟨⟨⟨⟨⟨⟨singleton_pred rfl, classCallEvents_pred fun i => rfl⟩,
        singleton_pred rfl⟩, staticElemInitEvents_pred fun i => rfl⟩,
        staticFieldEvents_pred fun i => rfl⟩, classInitEvents_pred fun i => rfl⟩,
        singleton_pred rfl⟩
  · rw [trace_split_at_exposure]
    exact eventsOrdered_append hA (singleton_pred rfl)
  · rw [trace_split_at_exposure]
    exact eventsOrdered_append hA (singleton_pred rfl)

/-! ### The Context Record passed to transformers (README, "Calling decorators") -/

/-- The kinds of decorated values: `"class"`, `"method"`, `"getter"`,
`"setter"`, `"field"`, `"accessor"`. -/
inductive Kind
  | classKind
  | method
  | getter
  | setter
  | field
  | accessor
  deriving DecidableEq

/-- Which members a Context Record has: the `access` capability, the
`addInitializer` registration function, and the `getMetadata` and
`setMetadata` metadata functions. -/
structure ContextShape where
  hasAccess : Bool
  hasAddInitializer : Bool
  hasGetMetadata : Bool
  hasSetMetadata : Bool
  deriving DecidableEq

/-- The members of the context object built for one transformer
invocation, from the README: `access` "is only available for _private_
class elements"; `addInitializer` "is available for all decorators which
operate per-class … (in other words, decorators which do not have kind
`"field"`)", restated as "Since class fields already return an
initializer, they do not receive `addInitializer`"; the metadata
functions are listed for every decorator kind. -/
def contextShapeFor (k : Kind) (isPrivate : Bool) : ContextShape :=
  ⟨isPrivate && !(k == Kind.classKind), !(k == Kind.field), true, true⟩

/-- The Context Records built during the Calling phase: one record is
constructed per transformer invocation, from that invocation's own
element data alone. -/
def invocationContexts (invs : List (Kind × Bool)) : List ContextShape :=
  invs.map fun kp => contextShapeFor kp.1 kp.2

/-- C7 counterexample: for a field decoration the Context Record does
not contain an `addInitializer` registration function (README: "Since
class fields already return an initializer, they do not receive
`addInitializer`"), so it is false that every transformer invocation,
including fields, receives both `addInitializer` and the
metadata-definition function. -/
theorem context_record_field_counterexample :
    ¬ ((contextShapeFor Kind.field false).hasAddInitializer = true
        ∧ (contextShapeFor Kind.field false).hasSetMetadata = true) := by
  decide

/-- C7 (amended): every transformer invocation receives a Context Record
containing the metadata-definition function; it contains an
`addInitializer` registration function exactly when the decorated
element's kind is not `field`; and the record is created fresh per call,
the `i`-th invocation's record being built from the `i`-th invocation's
own element data. -/
theorem context_record_members (invs : List (Kind × Bool)) (k : Kind) (p : Bool) :
    (contextShapeFor k p).hasSetMetadata = true
    ∧ ((contextShapeFor k p).hasAddInitializer = true ↔ k ≠ Kind.field)
    ∧ (invocationContexts invs).length = invs.length
    ∧ (∀ i : Nat, (invocationContexts invs)[i]?
        = (invs[i]?).map fun kp => contextShapeFor kp.1 kp.2) := by
  refine ⟨rfl, ?_, by simp [invocationContexts], fun i => ?_⟩
  · cases k <;> simp [contextShapeFor]
  · simp [invocationContexts]

/-! ### Capability tokens for hidden elements (README, "Access") -/

/-- Identity of a hidden (private) element. -/
abbrev ElemId := Nat

/-- Instances, identified abstractly. -/
abbrev Inst := Nat

/-- The behavior of one element as installed on the class: a getter and
a setter indexed by the receiving instance (the setter returns the new
backing value it stores). -/
structure AccessorPair (V : Type) where
  get : Inst → V
  set : Inst → V → V

/-- A capability token: it captures only the identity of the element it
was issued for, never the behavior installed at issuance time — the
README states that the `access` methods "get the _final_ value of the
private element on the instance, not the current value passed to the
decorator". -/
structure Token where
  id : ElemId

def issueToken (id : ElemId) : Token := ⟨id⟩

/-- The store of installed element behaviors after the Applying phase
commits: each element's original accessor pair transformed by that
element's full chain. -/
def storeAfterCommit {V : Type} (origStore : ElemId → AccessorPair V)
    (chains : ElemId → List (Transformer (AccessorPair V))) : ElemId → AccessorPair V :=
  fun id => callChain (chains id) (origStore id)

/-- Calling a token's `get` reads the behavior currently installed for
its element and triggers it on the instance ("Calling the `get` and
`set` functions is equivalent to accessing the value on the
instance"). -/
def tokenGet {V : Type} (store : ElemId → AccessorPair V) (t : Token) (i : Inst) : V :=
  (store t.id).get i

def tokenSet {V : Type} (store : ElemId → AccessorPair V) (t : Token) (i : Inst) (v : V) : V :=
  (store t.id).set i v

/-- C4: capability tokens are late-bound.  A token issued for hidden
element `e` carries only `e`'s identity, so whenever a transformer later
in `e`'s chain — here the outermost one — replaces the accessor behavior
with `rep`, calling the token's `get` or `set` on an instance after
commit triggers `rep`, not a snapshot of the behavior installed when the
token was issued. -/
theorem capability_tokens_late_bound {V : Type} (origStore : ElemId → AccessorPair V)
    (chains : ElemId → List (Transformer (AccessorPair V))) (e : ElemId) (inst : Inst)
    (pre : List (Transformer (AccessorPair V))) (rep : AccessorPair V)
    (hchain : chains e = pre ++ [fun _ => some rep]) :
    tokenGet (storeAfterCommit origStore chains) (issueToken e) inst = rep.get inst
    ∧ (∀ v, tokenSet (storeAfterCommit origStore chains) (issueToken e) inst v
        = rep.set inst v)
    ∧ issueToken e = ⟨e⟩ := by
  have hfinal : storeAfterCommit origStore chains e = rep := by
    simp [storeAfterCommit, hchain, callChain_append, callChain, chainStep]
  exact ⟨by simp [tokenGet, issueToken, hfinal],
    fun v => by simp [tokenSet, issueToken, hfinal], rfl⟩

/-- Witness for C4 at a concrete input: the original behavior returns
`0`, the element's single transformer replaces the accessor pair, and
the token issued for the element reads the replacement (`10 + 1`) after
commit rather than the original `0`. -/
theorem capability_tokens_late_bound_witness :
    tokenGet (V := Nat)
        (storeAfterCommit (fun _ => ⟨fun _ => 0, fun _ v => v⟩)
          (fun _ => [fun _ => some ⟨fun i => i + 1, fun _ v => v + 1⟩]))
        (issueToken 4) 10 = 11 :=
  (capability_tokens_late_bound (V := Nat) (fun _ => ⟨fun _ => 0, fun _ v => v⟩)
    (fun _ => [fun _ => some ⟨fun i => i + 1, fun _ v => v + 1⟩]) 4 10 []
    ⟨fun i => i + 1, fun _ v => v + 1⟩ rfl).1

/-! ### Evaluating transformer references and resolution failure -/

/-- A transformer-reference expression, resolved through the external
resolution context. -/
abbrev Ref := Nat

/-- Modelled from the spec: the source documents describe the Evaluating
phase (expressions evaluated left to right, top to bottom, stored to be
called later) but give no code for the failure case, so following the
Decorator Chain Evaluator contract this resolves one chain's references
in order and raises `ResolutionError` (modelled as `Except.error ()`)
when a reference does not resolve to something callable. -/
def resolveChain {V : Type} (resolve : Ref → Option (Transformer V)) :
    List Ref → Except Unit (List (Transformer V))
  | [] => .ok []
  | r :: rest =>
    match resolve r with
    | none => .error ()
    | some c =>
      match resolveChain resolve rest with
      | .error e => .error e
      | .ok cs => .ok (c :: cs)

/-- Modelled from the spec: resolve every chain of the class, in order,
failing on the first unresolvable reference. -/
def resolveChains {V : Type} (resolve : Ref → Option (Transformer V)) :
    List (List Ref) → Except Unit (List (List (Transformer V)))
  | [] => .ok []
  | ch :: rest =>
    match resolveChain resolve ch with
    | .error e => .error e
    | .ok c =>
      match resolveChains resolve rest with
      | .error e => .error e
      | .ok cs => .ok (c :: cs)

/-- Modelled from the spec: a whole class-definition run.  Evaluating
resolves all chains; only on success does the Calling phase run each
chain on its element's payload, recording every invocation; a resolution
failure aborts the entire run with no transformer invoked and no class
value produced. -/
def runDefinition {V : Type} (resolve : Ref → Option (Transformer V))
    (chains : List (List Ref)) (ps : List V) :
    Except Unit (List V) × List (Nat × V) :=
  match resolveChains resolve chains with
  | .error e => (.error e, [])
  | .ok cs =>
    (.ok ((cs.zip ps).map fun cp => callChain cp.1 cp.2),
      (cs.zip ps).flatMap fun cp => (callChainLog cp.1 0 cp.2).2)

theorem resolveChain_error {V : Type} (resolve : Ref → Option (Transformer V))
    (ch : List Ref) (r : Ref) (hr : r ∈ ch) (h : resolve r = none) :
    resolveChain resolve ch = .error () := by
  induction ch with
  | nil => exact absurd hr (List.not_mem_nil r)
  | cons x rest ih =>
    rcases List.mem_cons.1 hr with hx | hx
    · subst hx
      simp [resolveChain, h]
    · cases hx' : resolve x with
      | none => simp [resolveChain, hx']
      | some c => simp [resolveChain, hx', ih hx]

theorem resolveChains_error {V : Type} (resolve : Ref → Option (Transformer V))
    (chains : List (List Ref)) (ch : List Ref) (r : Ref)
    (hch : ch ∈ chains) (hr : r ∈ ch) (h : resolve r = none) :
    resolveChains resolve chains = .error () := by
  induction chains with
  | nil => exact absurd hch (List.not_mem_nil ch)
  | cons c rest ih =>
    rcases List.mem_cons.1 hch with hc | hc
    · subst hc
      simp [resolveChains, resolveChain_error resolve ch r hr h]
    · cases hc' : resolveChain resolve c with
      | error e => simp [resolveChains, hc']
      | ok cs => simp [resolveChains, hc', ih hc]

/-- C6: when some transformer-reference expression of some chain does
not resolve to a callable, the run raises `ResolutionError` during
Evaluating: the outcome is the error, the invocation log is empty — no
transformer of any element was invoked — and no class value is ever
produced, so no partially-decorated class is committed or observable. -/
theorem resolution_failure_fail_fast {V : Type} (resolve : Ref → Option (Transformer V))
    (chains : List (List Ref)) (ps : List V) (ch : List Ref) (r : Ref)
    (hch : ch ∈ chains) (hr : r ∈ ch) (h : resolve r = none) :
    (runDefinition resolve chains ps).1 = .error ()
    ∧ (runDefinition resolve chains ps).2 = []
    ∧ ∀ res, (runDefinition resolve chains ps).1 ≠ .ok res := by
  have he := resolveChains_error resolve chains ch r hch hr h
  refine ⟨by simp [runDefinition, he], by simp [runDefinition, he], fun res hres => ?_⟩
  rw [show (runDefinition resolve chains ps).1 = .error () from by simp [runDefinition, he]]
    at hres
  exact Except.noConfusion hres

/-- Witness for C6 at a concrete input: one element with one reference
that does not resolve; the run errors with an empty invocation log. -/
theorem resolution_failure_fail_fast_witness :
    (runDefinition (V := Nat) (fun _ => none) [[0]] [7]).1 = .error ()
    ∧ (runDefinition (V := Nat) (fun _ => none) [[0]] [7]).2 = [] :=
  ⟨(resolution_failure_fail_fast (V := Nat) (fun _ => none) [[0]] [7] [0] 0
      (List.mem_singleton.2 rfl) (List.mem_singleton.2 rfl) rfl).1,
   (resolution_failure_fail_fast (V := Nat) (fun _ => none) [[0]] [7] [0] 0
      (List.mem_singleton.2 rfl) (List.mem_singleton.2 rfl) rfl).2.1⟩

/-! ### Same-name public elements and metadata overwriting (README, "Metadata") -/

/-- The kind of one class element declaration. -/
inductive ElemKind
  | method
  | field
  | getter
  | setter
  | accessor
  deriving DecidableEq

/-- One public class element declaration, in source order, with the
metadata value its decorator defines under the fixed key (`none` when it
defines none). -/
structure ElemDecl where
  name : String
  isStatic : Bool
  kind : ElemKind
  metaVal : Option Nat
  deriving DecidableEq

/-- Written after the claim's words, for comparison with the source
model: two kinds are "compatible" when each is a method, getter or
setter (which may coexist and coalesce); a field is compatible with
nothing. -/
def specKindsCompatible (a b : ElemKind) : Bool :=
  (a == ElemKind.method || a == ElemKind.getter || a == ElemKind.setter)
    && (b == ElemKind.method || b == ElemKind.getter || b == ElemKind.setter)

/-- Written after the claim's words: among the public elements there is
at most one per `(name, isStatic)` pair unless the kinds involved are
compatible. -/
def specUniquePublic (l : List ElemDecl) : Bool :=
  l.enum.all fun ie =>
    l.enum.all fun je =>
      ie.1 == je.1
        || !(ie.2.name == je.2.name && ie.2.isStatic == je.2.isStatic)
        || specKindsCompatible ie.2.kind je.2.kind

/-- Aggregation of a class's public metadata under one key, from the
README: declarations are processed in source order, and "if two public
class elements exist on the same class with the same name, then metadata
defined on the second element will overwrite metadata defined on the
element". -/
def aggregatePublicMeta (l : List ElemDecl) (k : String) : Option Nat :=
  l.foldl (fun acc e =>
    if e.name = k then
      match e.metaVal with
      | none => acc
      | some v => some v
    else acc) none

/-- C8 counterexample: the README's own same-name example declares a
public method `m` and a public field `m` in one class — the descriptor
model kept in source order violates the claimed uniqueness invariant,
yet the class is processed normally and its aggregated metadata under
`m` is the second element's value `2`, exactly as the README shows. -/
theorem descriptor_uniqueness_counterexample :
    specUniquePublic [⟨"m", false, ElemKind.method, some 1⟩,
        ⟨"m", false, ElemKind.field, some 2⟩] = false
    ∧ aggregatePublicMeta [⟨"m", false, ElemKind.method, some 1⟩,
        ⟨"m", false, ElemKind.field, some 2⟩] "m" = some 2 := by
  constructor
  · decide
  · decide

/-- C8 (amended): the descriptor model imposes no per-`(name, isStatic)`
uniqueness validation on public elements — declarations of any kinds,
including a field and a method, may share a name within one placement
and are all kept in source order; a later element's metadata under the
shared name overwrites the earlier element's: appending a declaration
for name `k` carrying a metadata value makes that value the aggregated
one, whatever came before. -/
theorem same_name_metadata_overwrites (l : List ElemDecl) (e : ElemDecl) (k : String)
    (hname : e.name = k) (hv : e.metaVal.isSome) :
    aggregatePublicMeta (l ++ [e]) k = e.metaVal := by
  obtain ⟨v, hv'⟩ := Option.isSome_iff_exists.1 hv
  simp [aggregatePublicMeta, List.foldl_append, hname, hv']

/-- Witness for C8 at the README's example: `meta1` writes `1` on method
`m`, `meta2` writes `2` on field `m`; the committed value is `2`. -/
theorem same_name_metadata_overwrites_witness :
    aggregatePublicMeta ([⟨"m", false, ElemKind.method, some 1⟩]
        ++ [⟨"m", false, ElemKind.field, some 2⟩]) "m" = some 2 :=
  same_name_metadata_overwrites [⟨"m", false, ElemKind.method, some 1⟩]
    ⟨"m", false, ElemKind.field, some 2⟩ "m" rfl rfl

/-! ### FriendKey (friend.js) -/

/-- A private name, as extracted from a throwaway class in `friend.js`:
an opaque identity plus its string description. -/
structure PrivateName where
  id : Nat
  description : String
  deriving DecidableEq

/-- The `key` of a class element descriptor: a string for public
elements, a `PrivateName` object for private ones (the code's
`typeof key === "object"` test). -/
inductive DescKey
  | pub (s : String)
  | priv (n : PrivateName)
  deriving DecidableEq

/-- A class element descriptor as `FriendKey.expose` consumes it (the
parts it reads). -/
structure Descriptor where
  key : DescKey
  deriving DecidableEq

/-- An instance's private storage: the private names installed on it,
with their current values. -/
structure Instance where
  fields : List (Nat × Int)
  deriving DecidableEq

def Instance.lookup (r : Instance) (id : Nat) : Option Int :=
  match r.fields.find? fun p => p.1 == id with
  | none => none
  | some p => some p.2

/-- Reading `key.get(receiver)` on a private name: reads the private field,
throwing a `TypeError` when the receiver does not carry it. -/
def PrivateName.get (n : PrivateName) (r : Instance) : Except Unit Int :=
  match r.lookup n.id with
  | none => .error ()
  | some v => .ok v

/-- Writing `key.set(receiver, value)` on a private name: writes the private
field, throwing when the receiver does not carry it. -/
def PrivateName.set (n : PrivateName) (r : Instance) (v : Int) : Except Unit Instance :=
  match r.lookup n.id with
  | none => .error ()
  | some _ => .ok ⟨r.fields.map fun p => if p.1 == n.id then (p.1, v) else p⟩

/-- The `FriendKey` state: its `#names` map from name strings to
private names. -/
structure FriendKey where
  names : List (String × PrivateName)
  deriving DecidableEq

/-- The method `key.get(receiver, name)` from `friend.js`: looks the string up in
`#names`, throws a `TypeError` when it was never registered, and
otherwise reads the private field from the receiver. -/
def FriendKey.get (fk : FriendKey) (receiver : Instance) (name : String) :
    Except Unit Int :=
  match lookupPublic fk.names name with
  | none => .error ()
  | some k => k.get receiver

/-- The method `key.set(receiver, name, value)` from `friend.js`: looks the string
up in `#names`, throws a `TypeError` when it was never registered, and
otherwise writes the private field of the receiver. -/
def FriendKey.set (fk : FriendKey) (receiver : Instance) (name : String) (value : Int) :
    Except Unit Instance :=
  match lookupPublic fk.names name with
  | none => .error ()
  | some k => k.set receiver value

/-- The decorator `key.expose` from `friend.js`: throws a `TypeError` when the
descriptor's key is not a private name ("@expose may only be used with
private class elements") or when the name string was already exposed
("@expose used on the same name repeatedly"); otherwise it registers the
private name under its description and returns the descriptor
unchanged. -/
def FriendKey.expose (fk : FriendKey) (d : Descriptor) :
    Except Unit (FriendKey × Descriptor) :=
  match d.key with
  | .pub _ => .error ()
  | .priv n =>
    if (lookupPublic fk.names n.description).isSome then .error ()
    else .ok (⟨fk.names ++ [(n.description, n)]⟩, d)

/-- C9: `FriendKey.get` and `FriendKey.set` throw a `TypeError` whenever
the name string was never registered through `expose`; `expose` throws a
`TypeError` when the decorated element's key is not a private name, and
when the same name string is exposed a second time; and after one
successful exposure of a private name, `get` and `set` on its string
read and write the underlying private element of the receiver. -/
theorem friendKey_contract (fk : FriendKey) (r : Instance) (s : String) (v : Int)
    (d : Descriptor) :
    (lookupPublic fk.names s = none →
      fk.get r s = .error () ∧ fk.set r s v = .error ())
    ∧ (∀ t, d.key = DescKey.pub t → fk.expose d = .error ())
    ∧ (∀ n, d.key = DescKey.priv n → (lookupPublic fk.names n.description).isSome →
        fk.expose d = .error ())
    ∧ (∀ n fk' d', d.key = DescKey.priv n → fk.expose d = .ok (fk', d') →
        d' = d
        ∧ fk'.get r n.description = n.get r
        ∧ fk'.set r n.description v = n.set r v) := by
  refine ⟨fun h => ⟨by simp [FriendKey.get, h], by simp [FriendKey.set, h]⟩,
    fun t ht => by simp [FriendKey.expose, ht],
    fun n hn hs => by simp [FriendKey.expose, hn, hs],
    fun n fk' d' hn hok => ?_⟩
  simp only [FriendKey.expose, hn] at hok
  split at hok
  · exact Except.noConfusion hok
  · next hs =>
    have hnone : lookupPublic fk.names n.description = none :=
      Option.not_isSome_iff_eq_none.1 (by simpa using hs)
    obtain ⟨hfk, hd⟩ : fk' = ⟨fk.names ++ [(n.description, n)]⟩ ∧ d' = d := by
      have := Except.ok.inj hok
      exact ⟨congrArg Prod.fst this |>.symm, congrArg Prod.snd this |>.symm⟩
    subst hfk
    subst hd
    have hlook : lookupPublic (fk.names ++ [(n.description, n)]) n.description = some n := by
      rw [lookupPublic_append, hnone]
      simp [lookupPublic]
    exact ⟨rfl, by simp [FriendKey.get, hlook], by simp [FriendKey.set, hlook]⟩

/-- Witness for C9 at concrete inputs: on a fresh key, `get` of the
unregistered `"#x"` throws; exposing a public key throws; exposing the
already-exposed string `"#x"` throws; after exposing private `#x`,
`get` reads the receiver's field (`5`) and `set` writes it (`9`). -/
theorem friendKey_contract_witness :
    FriendKey.get ⟨[]⟩ ⟨[(0, 5)]⟩ "#x" = .error ()
    ∧ FriendKey.expose ⟨[]⟩ ⟨DescKey.pub "x"⟩ = .error ()
    ∧ FriendKey.expose ⟨[("#x", ⟨0, "#x"⟩)]⟩ ⟨DescKey.priv ⟨1, "#x"⟩⟩ = .error ()
    ∧ FriendKey.get ⟨[("#x", ⟨0, "#x"⟩)]⟩ ⟨[(0, 5)]⟩ "#x" = .ok 5
    ∧ FriendKey.set ⟨[("#x", ⟨0, "#x"⟩)]⟩ ⟨[(0, 5)]⟩ "#x" 9 = .ok ⟨[(0, 9)]⟩ := by
  have h1 := (friendKey_contract ⟨[]⟩ ⟨[(0, 5)]⟩ "#x" 9 ⟨DescKey.pub "x"⟩).1 rfl
  have h2 := (friendKey_contract ⟨[]⟩ ⟨[(0, 5)]⟩ "#x" 9 ⟨DescKey.pub "x"⟩).2.1 "x" rfl
  have h3 := (friendKey_contract ⟨[("#x", ⟨0, "#x"⟩)]⟩ ⟨[(0, 5)]⟩ "#x" 9
    ⟨DescKey.priv ⟨1, "#x"⟩⟩).2.2.1 ⟨1, "#x"⟩ rfl (by decide)
  have h4 := (friendKey_contract ⟨[]⟩ ⟨[(0, 5)]⟩ "#x" 9
    ⟨DescKey.priv ⟨0, "#x"⟩⟩).2.2.2 ⟨0, "#x"⟩ ⟨[("#x", ⟨0, "#x"⟩)]⟩
    ⟨DescKey.priv ⟨0, "#x"⟩⟩ rfl rfl
  exact ⟨h1.1, h2, h3, h4.2.1.trans rfl, h4.2.2.trans rfl⟩

end Decorators
